import Mathlib

/-!
Verification of the exercise-record synthesis pipeline (exercises.py):
nearest-timestamp resolution, reconciliation of positional and
physiological sample streams, and assembly of the TCX lap/track document.

Modelling conventions, shared by all definitions below:
* Numeric values (epoch-millis timestamps, coordinates, sensor readings)
  are modelled as `Int`, except the raw heart-rate reading of a live-data
  sample, which the source stores as a float and coerces in place with
  `entry["heart_rate"] = int(entry["heart_rate"])` before any truthiness
  test: that reading is modelled as `Rat`, the write-back as `coerceHR`,
  and `int(...)` (truncation toward zero) as `pyIntOfRat`.
* Python truthiness of `dict.get(k)` (absent key gives `None`, and `None`,
  `0` and `0.0` are falsy) is modelled by `truthy : Option Int → Bool`.
* A Python dict with insertion order is modelled as an association list
  `List (Int × Obs)`; keys stay unique because entries are only appended
  when the key is absent.
* The ISO-8601 time string produced by `strftime` is a deterministic
  function of the epoch-millis timestamp it is derived from; no property
  below inspects the rendered text, so the `time` field keeps the raw
  timestamp the string would be formatted from.
-/

namespace SamToGarm

/-- Python truthiness of an optional numeric value: `None`, `0`, `0.0` are
falsy, everything else truthy. -/
def truthy : Option Int → Bool
  | some v => v != 0
  | none => false

/-- One positional (GPS) sample: `{"start_time": ..., "latitude": ...,
"longitude": ..., ("altitude": ...)}`.  `latitude`/`longitude` are accessed
unconditionally by the source, `altitude` is optional. -/
structure LocEntry where
  start_time : Int
  latitude : Int
  longitude : Int
  altitude : Option Int := none
deriving DecidableEq, Repr

/-- One physiological (live-data) sample: `start_time` plus any subset of
`distance`, `cadence`, `heart_rate`, `speed`.  The raw heart-rate reading
is a float in the source (the spec's `heart_rate: float?`), modelled as a
rational; the other sensor values are never transformed, so an opaque
`Int` stands in for them. -/
structure LiveEntry where
  start_time : Int
  distance : Option Int := none
  cadence : Option Int := none
  heart_rate : Option Rat := none
  speed : Option Int := none
deriving DecidableEq, Repr

/-- Python `int(...)` applied to a (rational-valued) float: truncation
toward zero. -/
def pyIntOfRat (q : Rat) : Int := q.num.tdiv q.den

/-- The in-place heart-rate coercion `entry["heart_rate"] =
int(entry["heart_rate"])` (run for every sample that carries the field,
before the sensor-field loop). -/
def coerceHR (e : LiveEntry) : LiveEntry :=
  match e.heart_rate with
  | some q => { e with heart_rate := some ((pyIntOfRat q : Int) : Rat) }
  | none => e

/-- One merged observation (a value of the `merged_data` dict in
`merge_location_and_live_data`). -/
structure Obs where
  time : Int
  latitude : Option Int := none
  longitude : Option Int := none
  altitude : Option Int := none
  distance : Option Int := none
  cadence : Option Int := none
  heart_rate : Option Int := none
  speed : Option Int := none
deriving DecidableEq, Repr

/-- The `merged_data` dict: an insertion-ordered association list from
epoch-millis timestamp to observation. -/
abbrev MData := List (Int × Obs)

/-- Dict lookup (`merged_data[k]` / `k in merged_data`). -/
def mlookup : MData → Int → Option Obs
  | [], _ => none
  | (k2, o) :: rest, k => if k = k2 then some o else mlookup rest k

/-- Dict update in place of the binding for key `k`
(`merged_data[k][...] = ...`). -/
def mupdate : MData → Int → (Obs → Obs) → MData
  | [], _, _ => []
  | (k2, o) :: rest, k, g =>
      if k = k2 then (k2, g o) :: rest else (k2, o) :: mupdate rest k g

/-- Names of the optional per-observation fields. -/
inductive FieldName where
  | latitude | longitude | altitude | distance | cadence | heart_rate | speed
deriving DecidableEq, Repr

/-- Read an optional field of an observation (`obs.get(field)`). -/
def getF (o : Obs) : FieldName → Option Int
  | .latitude => o.latitude
  | .longitude => o.longitude
  | .altitude => o.altitude
  | .distance => o.distance
  | .cadence => o.cadence
  | .heart_rate => o.heart_rate
  | .speed => o.speed

/-- Write a field of an observation (`obs[field] = x`). -/
def setF (o : Obs) (f : FieldName) (x : Int) : Obs :=
  match f with
  | .latitude => { o with latitude := some x }
  | .longitude => { o with longitude := some x }
  | .altitude => { o with altitude := some x }
  | .distance => { o with distance := some x }
  | .cadence => { o with cadence := some x }
  | .heart_rate => { o with heart_rate := some x }
  | .speed => { o with speed := some x }

/-- Field access through the dict: the value of field `f` at key `k`. -/
def getMF (s : MData) (k : Int) (f : FieldName) : Option Int :=
  (mlookup s k).bind (fun o => getF o f)

/-- Read one of the sensor fields of a live-data sample (`entry.get(key)`)
as the sensor-field loop sees it.  The loop runs after the in-place
heart-rate coercion, so the heart-rate value it reads is the truncated
integer; on an already-coerced sample the extra `pyIntOfRat` is the
identity. -/
def getLF (e : LiveEntry) : FieldName → Option Int
  | .distance => e.distance
  | .cadence => e.cadence
  | .heart_rate => e.heart_rate.map pyIntOfRat
  | .speed => e.speed
  | _ => none

/-- The key list `["distance", "cadence", "heart_rate", "speed"]` tried for
every live-data sample. -/
def liveKeys : List FieldName :=
  [FieldName.distance, FieldName.cadence, FieldName.heart_rate, FieldName.speed]

/-- The observation seeded from one positional sample: `time`, `latitude`,
`longitude`, and `altitude` when the sample has one. -/
def locObs (e : LocEntry) : Obs :=
  { time := e.start_time
    latitude := some e.latitude
    longitude := some e.longitude
    altitude := e.altitude }

/-- One iteration of the first loop of `merge_location_and_live_data`:
copy a positional sample into `merged_data` unless its timestamp is
already a key. -/
def procLoc (s : MData) (e : LocEntry) : MData :=
  match mlookup s e.start_time with
  | some _ => s
  | none => s ++ [(e.start_time, locObs e)]

/-- The body of the scan in `find_nearest_time`: replace the best-so-far
when the next candidate is strictly closer to `ts`. -/
def nearStep (ts closest t : Int) : Int :=
  if |t - ts| < |closest - ts| then t else closest

/-- `find_nearest_time(ts, data)`: sort the candidate timestamps in
ascending order (Python `sorted`; insertion sort yields the same ascending
list of integers) and scan them, starting from the sentinel `0`, keeping a
candidate only when strictly closer to `ts` than the best so far. -/
def find_nearest_time (ts : Int) (data : List LocEntry) : Int :=
  (List.insertionSort (· ≤ ·) (data.map (·.start_time))).foldl (nearStep ts) 0

/-- A fresh merged entry carrying only the `time` field. -/
def emptyObs (ts : Int) : Obs := { time := ts }

/-- The body of the `for key in [...]` loop of the second phase: when the
sample's value for the field is truthy, create the entry at `ts` if the
key is missing, then write the field only if the entry does not already
carry it. -/
def procField (ts : Int) (f : FieldName) (v : Option Int) (s : MData) : MData :=
  match v with
  | none => s
  | some x =>
      if x = 0 then s
      else
        let s1 := if (mlookup s ts).isNone
          then s ++ [(ts, setF (emptyObs ts) f x)] else s
        -- `ts` is a key of `s1` by construction, so `key not in
        -- merged_data[ts]` is exactly "field `f` absent at key `ts`".
        if (getMF s1 ts f).isNone then mupdate s1 ts (fun o2 => setF o2 f x) else s1

/-- One iteration of the second loop of `merge_location_and_live_data`:
snap the sample's timestamp to the nearest positional timestamp when it is
not yet a key and positional data exists (the source writes the snapped
value back into the sample: `entry["start_time"] = ts`), then try all four
sensor fields.  Returns the new dict together with the (possibly mutated)
sample. -/
def procLive (loc : List LocEntry) (s : MData) (e : LiveEntry) : MData × LiveEntry :=
  let snap := (mlookup s e.start_time).isNone && !loc.isEmpty
  let ts := if snap then find_nearest_time e.start_time loc else e.start_time
  let e2 := if snap then { e with start_time := ts } else e
  -- line 337-338 of the source: the heart-rate reading is truncated to an
  -- integer in place before the field loop runs.
  let e3 := coerceHR e2
  (liveKeys.foldl (fun s2 f => procField ts f (getLF e3 f) s2) s, e3)

/-- Fold step over the live-data list, accumulating the dict and the list
of (possibly mutated) samples. -/
def mergeStep (loc : List LocEntry) (acc : MData × List LiveEntry) (e : LiveEntry) :
    MData × List LiveEntry :=
  let p := procLive loc acc.1 e
  (p.1, acc.2 ++ [p.2])

/-- The dict after the first (positional) loop. -/
def locState (loc : List LocEntry) : MData := loc.foldl procLoc []

/-- Both loops of `merge_location_and_live_data`, before sorting and
forward-filling: the dict and the live-data list as left in memory. -/
def mergeLoop (loc : List LocEntry) (live : List LiveEntry) : MData × List LiveEntry :=
  live.foldl (mergeStep loc) (locState loc, [])

/-- `dict(sorted(merged_data.items()))`: sort the entries by key (keys are
unique, so the tuple comparison never reaches the values). -/
def sortMerged (s : MData) : MData :=
  List.insertionSort (fun a b => a.1 ≤ b.1) s

/-- The forward-fill pass: carry the last truthy heart rate (initially
`0`); an entry with a truthy heart rate of its own updates the carry, any
other entry gets the carry written into it. -/
def fillHR (carry : Int) : MData → MData
  | [] => []
  | (k, o) :: rest =>
      match o.heart_rate with
      | some h =>
          if h = 0 then (k, { o with heart_rate := some carry }) :: fillHR carry rest
          else (k, o) :: fillHR h rest
      | none => (k, { o with heart_rate := some carry }) :: fillHR carry rest

/-- The sorted merged dict just before the forward-fill pass. -/
def preMerged (loc : List LocEntry) (live : List LiveEntry) : MData :=
  sortMerged (mergeLoop loc live).1

/-- `merge_location_and_live_data(locationdata, livedata)`: seed with the
positional samples, fold in the live data (with snapping), sort by
timestamp, forward-fill heart rate. -/
def merge_location_and_live_data (loc : List LocEntry) (live : List LiveEntry) : MData :=
  fillHR 0 (preMerged loc live)

/-- The merge together with the live-data list as left after the in-place
timestamp mutations. -/
def mergeFull (loc : List LocEntry) (live : List LiveEntry) : MData × List LiveEntry :=
  (merge_location_and_live_data loc live, (mergeLoop loc live).2)

/-- A `<Trackpoint>` node: required `Time`, optional `Position` (the pair
of values read from `data["latitude"]` and `data["longitude"]`; the source
reads `latitude` unguarded, so a missing latitude — a `KeyError` there —
is carried as `none`), optional `HeartRateBpm`, optional `Cadence`. -/
structure Trackpoint where
  time : Int
  position : Option (Option Int × Option Int) := none
  heart_rate : Option Int := none
  cadence : Option Int := none
deriving DecidableEq, Repr

/-- `create_trackpoint(data)`: emit `Position` when `data.get("altitude")`
and `data.get("longitude")` are truthy (this is what the source tests),
`HeartRateBpm` and `Cadence` when truthy; drop the whole trackpoint when
only `<Time>` would remain. -/
def create_trackpoint (o : Obs) : Option Trackpoint :=
  let pos := if truthy o.altitude && truthy o.longitude
    then some (o.latitude, o.longitude) else none
  let hr := if truthy o.heart_rate then o.heart_rate else none
  let cad := if truthy o.cadence then o.cadence else none
  let count := 1 + (if pos.isSome then 1 else 0) + (if hr.isSome then 1 else 0)
    + (if cad.isSome then 1 else 0)
  if count = 1 then none
  else some { time := o.time, position := pos, heart_rate := hr, cadence := cad }

/-- Python `int(float(s))` for the plain decimal literals the CSV holds
(optional leading minus, digits, optional fractional part): truncation
toward zero at the decimal point. -/
def pyIntOfFloatStr (s : String) : Int :=
  let core := fun (l : List Char) =>
    ((l.takeWhile (fun c => c ≠ '.')).foldl (fun a c => 10 * a + (c.toNat - 48)) 0 : Nat)
  match s.toList with
  | '-' :: rest => -(core rest : Int)
  | cs => (core cs : Int)

/-- A `<Lap>` node.  Node values that the source copies verbatim are kept
as the raw strings; the two heart-rate summary values are rendered as
integers as the source does; the numeric renderings of duration and
calories are not inspected by any property below, so those nodes keep the
gate result with the raw input string. -/
structure Lap where
  startTime : String
  totalTime : Option String := none
  distanceNode : Option String := none
  maxSpeedNode : Option String := none
  caloriesNode : Option String := none
  avgHRNode : Option Int := none
  maxHRNode : Option Int := none
  avgSpeedNode : Option String := none
  avgCadenceNode : Option String := none
  maxCadenceNode : Option String := none
  track : Option (List Trackpoint) := none
deriving DecidableEq, Repr

/-- `create_lap(...)`: every summary node is gated on the truthiness of
its input string; `AverageHeartRateBpm` additionally on
`avg_hr != "0.0"`, and `MaximumHeartRateBpm` on `max_hr` truthy and
`avg_hr != "0.0"` (the sentinel test the source performs there reads
`avg_hr`, not `max_hr`); the extension nodes are gated on their own value
being truthy and not `"0.0"` (the enclosing `Extensions` gate is implied
by each inner gate). -/
def create_lap (start_time duration distance calories : String)
    (avg_hr : String := "") (max_hr : String := "") (avg_speed : String := "")
    (max_speed : String := "") (avg_cadence : String := "")
    (max_cadence : String := "") : Lap :=
  { startTime := start_time
    totalTime := if duration != "" then some duration else none
    distanceNode := if distance != "" then some distance else none
    maxSpeedNode := if max_speed != "" then some max_speed else none
    caloriesNode := if calories != "" then some calories else none
    avgHRNode :=
      if avg_hr != "" && avg_hr != "0.0" then some (pyIntOfFloatStr avg_hr) else none
    maxHRNode :=
      if max_hr != "" && avg_hr != "0.0" then some (pyIntOfFloatStr max_hr) else none
    avgSpeedNode :=
      if avg_speed != "" && avg_speed != "0.0" then some avg_speed else none
    avgCadenceNode :=
      if avg_cadence != "" && avg_cadence != "0.0" then some avg_cadence else none
    maxCadenceNode :=
      if max_cadence != "" && max_cadence != "0.0" then some max_cadence else none }

/-- The document: one root, one activity with `Id` and `Sport`, one lap. -/
structure TCXDoc where
  id : String
  sport : String
  lap : Lap
deriving DecidableEq, Repr

/-- `build_xml(a_id, ex_type, lap, trackpoints)`: skip the empty
trackpoints (`None` entries), and attach the track to the lap only when it
holds at least one trackpoint. -/
def build_xml (a_id ex_type : String) (lap : Lap) (tps : List (Option Trackpoint)) :
    TCXDoc :=
  let track := tps.filterMap id
  let lap2 := if track.length > 0 then { lap with track := some track } else lap
  { id := a_id, sport := ex_type, lap := lap2 }

/-- The trackpoint list `prepare_exercise_data` builds from the merged
observations (dict iteration order = ascending timestamp after the merge's
final sort). -/
def exerciseTrackpoints (loc : List LocEntry) (live : List LiveEntry) :
    List (Option Trackpoint) :=
  (merge_location_and_live_data loc live).map (fun p => create_trackpoint p.2)

/-- Spec-side description of the forward-fill (spec §8, "Forward-filled
heart rate is monotonic in staleness"): the reading of the most recent
entry of `l` that carries its own explicit heart-rate reading, or the
default `d` when none does. -/
def specLastHR (d : Int) (l : MData) : Int :=
  ((l.filterMap (fun p => p.2.heart_rate)).getLast?).getD d

/-- A live-data sample carries at least one truthy sensor field, with
truthiness as the sensor-field loop sees it (the heart-rate reading after
its in-place integer truncation). -/
def truthyAny (e : LiveEntry) : Bool :=
  truthy (getLF e FieldName.distance) || truthy (getLF e FieldName.cadence)
    || truthy (getLF e FieldName.heart_rate) || truthy (getLF e FieldName.speed)

/-! ### Dictionary lemmas -/

lemma mlookup_append (s t : MData) (k : Int) :
    mlookup (s ++ t) k = (mlookup s k).or (mlookup t k) := by
  induction s with
  | nil => simp [mlookup, Option.or]
  | cons p rest ih =>
      obtain ⟨k2, o⟩ := p
      by_cases h : k = k2
      · simp [mlookup, h, Option.or]
      · simp [mlookup, h, ih]

lemma mlookup_append_some {s : MData} {k : Int} {o : Obs} (t : MData)
    (h : mlookup s k = some o) : mlookup (s ++ t) k = some o := by
  rw [mlookup_append, h]; rfl

lemma mlookup_mupdate (s : MData) (t : Int) (g : Obs → Obs) (k : Int) :
    mlookup (mupdate s t g) k =
      if k = t then (mlookup s t).map g else mlookup s k := by
  induction s with
  | nil => simp [mlookup, mupdate]
  | cons p rest ih =>
      obtain ⟨k2, o⟩ := p
      by_cases ht : t = k2
      · subst ht
        by_cases hk : k = t
        · subst hk; simp [mupdate, mlookup]
        · simp [mupdate, mlookup, hk]
      · by_cases hk : k = k2
        · subst hk
          have hkt : ¬ k = t := fun h => ht h.symm
          simp [mupdate, ht, mlookup, hkt]
        · simp [mupdate, fun h => ht h, mlookup, hk, ih]

lemma mupdate_map_fst (s : MData) (t : Int) (g : Obs → Obs) :
    (mupdate s t g).map Prod.fst = s.map Prod.fst := by
  induction s with
  | nil => simp [mupdate]
  | cons p rest ih =>
      obtain ⟨k2, o⟩ := p
      by_cases ht : t = k2
      · simp [mupdate, ht]
      · simp [mupdate, ht, ih]

lemma mlookup_isSome_iff_mem_fst (s : MData) (k : Int) :
    (mlookup s k).isSome ↔ k ∈ s.map Prod.fst := by
  induction s with
  | nil => simp [mlookup]
  | cons p rest ih =>
      obtain ⟨k2, o⟩ := p
      by_cases h : k = k2
      · simp [mlookup, h]
      · simp [mlookup, h, ih]

/-! ### Field read/write lemmas -/

lemma getF_setF_self (o : Obs) (f : FieldName) (x : Int) :
    getF (setF o f x) f = some x := by
  cases f <;> simp [getF, setF]

lemma getF_setF_ne (o : Obs) (f f2 : FieldName) (x : Int) (h : f ≠ f2) :
    getF (setF o f2 x) f = getF o f := by
  cases f <;> cases f2 <;> first | exact absurd rfl h | simp [getF, setF]

/-! ### Preservation: a stored field value survives every later step -/

lemma mlookup_procLoc_some {s : MData} {k : Int} {o : Obs} (e : LocEntry)
    (h : mlookup s k = some o) : mlookup (procLoc s e) k = some o := by
  unfold procLoc
  cases hl : mlookup s e.start_time with
  | some o2 => exact h
  | none => exact mlookup_append_some _ h

lemma getMF_procLoc {s : MData} {k : Int} {f : FieldName} {x : Int} (e : LocEntry)
    (h : getMF s k f = some x) : getMF (procLoc s e) k f = some x := by
  unfold getMF at h ⊢
  cases hk : mlookup s k with
  | none => rw [hk] at h; exact absurd h (by simp)
  | some o => rw [hk] at h; rw [mlookup_procLoc_some e hk]; exact h

lemma getMF_procField {s : MData} {k : Int} {f : FieldName} {x : Int}
    (ts : Int) (f2 : FieldName) (v : Option Int)
    (h : getMF s k f = some x) : getMF (procField ts f2 v s) k f = some x := by
  cases v with
  | none => exact h
  | some y =>
      by_cases hy : y = 0
      · simpa [procField, hy] using h
      · have h1 : ∀ s1 : MData, getMF s1 k f = some x →
            getMF (if (getMF s1 ts f2).isNone
              then mupdate s1 ts (fun o2 => setF o2 f2 y) else s1) k f = some x := by
          intro s1 h1
          by_cases hg : (getMF s1 ts f2).isNone
          · rw [if_pos hg]
            unfold getMF at h1 ⊢
            rw [mlookup_mupdate]
            by_cases hk : k = ts
            · subst hk
              rw [if_pos rfl]
              cases hs : mlookup s1 k with
              | none => rw [hs] at h1; exact absurd h1 (by simp)
              | some o =>
                  rw [hs] at h1
                  simp only [Option.map_some'] at *
                  simp only [Option.some_bind] at *
                  by_cases hf : f = f2
                  · exfalso
                    unfold getMF at hg
                    rw [hs] at hg
                    simp only [Option.some_bind] at hg
                    rw [← hf, h1] at hg
                    exact absurd hg (by simp)
                  · rw [getF_setF_ne _ _ _ _ hf]; exact h1
            · rw [if_neg hk]; exact h1
          · rw [if_neg hg]; exact h1
        have h2 : getMF (if (mlookup s ts).isNone
            then s ++ [(ts, setF (emptyObs ts) f2 y)] else s) k f = some x := by
          by_cases hs : (mlookup s ts).isNone
          · rw [if_pos hs]
            unfold getMF at h ⊢
            cases hk : mlookup s k with
            | none => rw [hk] at h; exact absurd h (by simp)
            | some o => rw [hk] at h; rw [mlookup_append_some _ hk]; exact h
          · rw [if_neg hs]; exact h
        simpa [procField, hy] using h1 _ h2

lemma getMF_fieldFold {k : Int} {f : FieldName} {x : Int} (ts : Int)
    (g : FieldName → Option Int) :
    ∀ (fs : List FieldName) (s : MData), getMF s k f = some x →
      getMF (fs.foldl (fun s2 f2 => procField ts f2 (g f2) s2) s) k f = some x := by
  intro fs
  induction fs with
  | nil => intro s h; exact h
  | cons f2 rest ih =>
      intro s h
      exact ih _ (getMF_procField ts f2 (g f2) h)

lemma getMF_procLive {s : MData} {k : Int} {f : FieldName} {x : Int}
    (loc : List LocEntry) (e : LiveEntry)
    (h : getMF s k f = some x) : getMF (procLive loc s e).1 k f = some x := by
  unfold procLive
  exact getMF_fieldFold _ _ liveKeys s h

lemma getMF_locFold {k : Int} {f : FieldName} {x : Int} :
    ∀ (loc : List LocEntry) (s : MData), getMF s k f = some x →
      getMF (loc.foldl procLoc s) k f = some x := by
  intro loc
  induction loc with
  | nil => intro s h; exact h
  | cons e rest ih => intro s h; exact ih _ (getMF_procLoc e h)

lemma getMF_liveFold {k : Int} {f : FieldName} {x : Int} (loc : List LocEntry) :
    ∀ (live : List LiveEntry) (acc : MData × List LiveEntry),
      getMF acc.1 k f = some x →
      getMF (live.foldl (mergeStep loc) acc).1 k f = some x := by
  intro live
  induction live with
  | nil => intro acc h; exact h
  | cons e rest ih =>
      intro acc h
      exact ih _ (getMF_procLive loc e h)

/-! ### Option helpers -/

lemma option_some_or {α : Type _} (a : α) (x : Option α) : (some a).or x = some a := rfl

lemma option_none_or {α : Type _} (x : Option α) : (Option.or none x) = x := by
  cases x <;> rfl

lemma option_or_none {α : Type _} (x : Option α) : x.or none = x := by
  cases x <;> rfl

/-! ### Domain monotonicity: keys are never removed -/

lemma isSome_procLoc {s : MData} {k : Int} (e : LocEntry)
    (h : (mlookup s k).isSome) : (mlookup (procLoc s e) k).isSome := by
  obtain ⟨o, ho⟩ := Option.isSome_iff_exists.mp h
  rw [mlookup_procLoc_some e ho]; rfl

lemma isSome_procField {s : MData} {k : Int} (ts : Int) (f : FieldName) (v : Option Int)
    (h : (mlookup s k).isSome) : (mlookup (procField ts f v s) k).isSome := by
  cases v with
  | none => exact h
  | some y =>
      by_cases hy : y = 0
      · simpa [procField, hy] using h
      · have step2 : ∀ s1 : MData, (mlookup s1 k).isSome →
            (mlookup (if (getMF s1 ts f).isNone
              then mupdate s1 ts (fun o2 => setF o2 f y) else s1) k).isSome := by
          intro s1 h1
          by_cases hg : (getMF s1 ts f).isNone
          · rw [if_pos hg, mlookup_mupdate]
            by_cases hk : k = ts
            · subst hk; rw [if_pos rfl]; simpa using h1
            · rw [if_neg hk]; exact h1
          · rw [if_neg hg]; exact h1
        have step1 : (mlookup (if (mlookup s ts).isNone
            then s ++ [(ts, setF (emptyObs ts) f y)] else s) k).isSome := by
          by_cases hs : (mlookup s ts).isNone
          · rw [if_pos hs, mlookup_append]
            obtain ⟨o, ho⟩ := Option.isSome_iff_exists.mp h
            rw [ho]; rfl
          · rw [if_neg hs]; exact h
        simpa [procField, hy] using step2 _ step1

lemma isSome_fieldFold {k : Int} (ts : Int) (g : FieldName → Option Int) :
    ∀ (fs : List FieldName) (s : MData), (mlookup s k).isSome →
      (mlookup (fs.foldl (fun s2 f2 => procField ts f2 (g f2) s2) s) k).isSome := by
  intro fs
  induction fs with
  | nil => intro s h; exact h
  | cons f2 rest ih => intro s h; exact ih _ (isSome_procField ts f2 (g f2) h)

lemma isSome_procLive {s : MData} {k : Int} (loc : List LocEntry) (e : LiveEntry)
    (h : (mlookup s k).isSome) : (mlookup (procLive loc s e).1 k).isSome := by
  unfold procLive
  exact isSome_fieldFold _ _ liveKeys s h

lemma isSome_liveFold {k : Int} (loc : List LocEntry) :
    ∀ (live : List LiveEntry) (acc : MData × List LiveEntry),
      (mlookup acc.1 k).isSome →
      (mlookup (live.foldl (mergeStep loc) acc).1 k).isSome := by
  intro live
  induction live with
  | nil => intro acc h; exact h
  | cons e rest ih => intro acc h; exact ih _ (isSome_procLive loc e h)

/-! ### Inverse domain bounds: where new keys can come from -/

lemma procField_isSome_inv {s : MData} {k : Int} (ts : Int) (f : FieldName)
    (v : Option Int)
    (h : (mlookup (procField ts f v s) k).isSome) :
    (mlookup s k).isSome ∨ k = ts := by
  cases v with
  | none => exact Or.inl h
  | some y =>
      by_cases hy : y = 0
      · rw [procField] at h; rw [if_pos hy] at h; exact Or.inl h
      · have h0 : (mlookup (procField ts f (some y) s) k).isSome := h
        rw [procField] at h0
        rw [if_neg hy] at h0
        set s1 := if (mlookup s ts).isNone
          then s ++ [(ts, setF (emptyObs ts) f y)] else s with hs1
        have h1 : (mlookup s1 k).isSome := by
          by_cases hg : (getMF s1 ts f).isNone
          · rw [if_pos hg, mlookup_mupdate] at h0
            by_cases hk : k = ts
            · rw [if_pos hk] at h0
              rw [hk]
              simpa using h0
            · rwa [if_neg hk] at h0
          · rwa [if_neg hg] at h0
        by_cases hs : (mlookup s ts).isNone
        · rw [hs1, if_pos hs, mlookup_append] at h1
          cases hk2 : mlookup s k with
          | some o => exact Or.inl rfl
          | none =>
              rw [hk2, option_none_or] at h1
              by_cases hk : k = ts
              · exact Or.inr hk
              · rw [show mlookup [(ts, setF (emptyObs ts) f y)] k = none by
                  simp [mlookup, hk]] at h1
                exact absurd h1 (by simp)
        · rw [hs1, if_neg hs] at h1
          exact Or.inl h1

lemma fieldFold_isSome_inv {k : Int} (ts : Int) (g : FieldName → Option Int) :
    ∀ (fs : List FieldName) (s : MData),
      (mlookup (fs.foldl (fun s2 f2 => procField ts f2 (g f2) s2) s) k).isSome →
      (mlookup s k).isSome ∨ k = ts := by
  intro fs
  induction fs with
  | nil => intro s h; exact Or.inl h
  | cons f2 rest ih =>
      intro s h
      rcases ih _ h with h2 | h2
      · exact procField_isSome_inv ts f2 (g f2) h2
      · exact Or.inr h2

/-! ### Element shape lemmas -/

lemma mem_mupdate (s : MData) (t : Int) (g : Obs → Obs) :
    ∀ p ∈ mupdate s t g, p ∈ s ∨ ∃ q ∈ s, p = (q.1, g q.2) := by
  induction s with
  | nil => intro p hp; exact absurd hp (List.not_mem_nil p)
  | cons q rest ih =>
      obtain ⟨k2, o⟩ := q
      intro p hp
      by_cases ht : t = k2
      · rw [mupdate, if_pos ht] at hp
        rcases List.mem_cons.mp hp with rfl | hp2
        · exact Or.inr ⟨(k2, o), List.mem_cons_self _ _, rfl⟩
        · exact Or.inl (List.mem_cons_of_mem _ hp2)
      · rw [mupdate, if_neg ht] at hp
        rcases List.mem_cons.mp hp with rfl | hp2
        · exact Or.inl (List.mem_cons_self _ _)
        · rcases ih p hp2 with h2 | ⟨q2, hq2, hq3⟩
          · exact Or.inl (List.mem_cons_of_mem _ h2)
          · exact Or.inr ⟨q2, List.mem_cons_of_mem _ hq2, hq3⟩

lemma locFold_mem :
    ∀ (loc : List LocEntry) (s : MData) (p : Int × Obs),
      p ∈ loc.foldl procLoc s →
      p ∈ s ∨ ∃ e ∈ loc, p = (e.start_time, locObs e) := by
  intro loc
  induction loc with
  | nil => intro s p hp; exact Or.inl hp
  | cons e rest ih =>
      intro s p hp
      rw [List.foldl_cons] at hp
      rcases ih _ _ hp with h1 | ⟨e2, he2, hpe⟩
      · unfold procLoc at h1
        cases hl : mlookup s e.start_time with
        | some o2 => rw [hl] at h1; exact Or.inl h1
        | none =>
            rw [hl] at h1
            rcases List.mem_append.mp h1 with h2 | h2
            · exact Or.inl h2
            · rcases List.mem_singleton.mp h2 with rfl
              exact Or.inr ⟨e, List.mem_cons_self _ _, rfl⟩
      · exact Or.inr ⟨e2, List.mem_cons_of_mem _ he2, hpe⟩

/-- The dict after the positional loop maps `k` to the observation of the
first positional sample with timestamp `k` (first one wins). -/
lemma locFold_lookup :
    ∀ (loc : List LocEntry) (s : MData) (k : Int),
      mlookup (loc.foldl procLoc s) k =
        (mlookup s k).or ((loc.find? (fun e => e.start_time == k)).map locObs) := by
  intro loc
  induction loc with
  | nil => intro s k; simp [option_or_none]
  | cons e rest ih =>
      intro s k
      rw [List.foldl_cons, ih]
      unfold procLoc
      cases hl : mlookup s e.start_time with
      | some o2 =>
          cases hsk : mlookup s k with
          | some o3 => rw [option_some_or, option_some_or]
          | none =>
              rw [option_none_or, option_none_or]
              have hne : (e.start_time == k) = false := by
                apply beq_eq_false_iff_ne.mpr
                intro heq
                rw [heq] at hl
                rw [hl] at hsk
                exact Option.noConfusion hsk
              rw [List.find?_cons_of_neg _ (by simp [hne])]
      | none =>
          rw [mlookup_append]
          by_cases hk : e.start_time = k
          · subst hk
            rw [hl, option_none_or, option_none_or]
            have : mlookup [(e.start_time, locObs e)] e.start_time = some (locObs e) := by
              simp [mlookup]
            rw [this, List.find?_cons_of_pos _ (by simp)]
            rfl
          · have hk2 : ¬ k = e.start_time := fun h => hk h.symm
            have : mlookup [(e.start_time, locObs e)] k = none := by
              simp [mlookup, hk2]
            rw [this, option_or_none,
              List.find?_cons_of_neg _ (by simpa using hk)]

/-! ### Key lists through sorting and forward-fill -/

lemma fillHR_map_fst (l : MData) :
    ∀ c, (fillHR c l).map Prod.fst = l.map Prod.fst := by
  induction l with
  | nil => intro c; rfl
  | cons p rest ih =>
      intro c
      obtain ⟨k, o⟩ := p
      cases ho : o.heart_rate with
      | some h =>
          by_cases h0 : h = 0
          · simp [fillHR, ho, h0, ih]
          · simp [fillHR, ho, h0, ih]
      | none => simp [fillHR, ho, ih]

lemma sortMerged_perm (s : MData) : List.Perm (sortMerged s) s :=
  List.perm_insertionSort _ s

/-! ### The nearest-timestamp scan -/

/-- Running minimum of the strict-improvement scan: the result is the
initial value or a list element, its distance to `ts` is minimal over the
initial value and all elements, and it differs from the initial value only
by being strictly closer. -/
lemma near_fold (ts : Int) :
    ∀ (l : List Int) (c : Int),
      (l.foldl (nearStep ts) c = c ∨ l.foldl (nearStep ts) c ∈ l) ∧
      |l.foldl (nearStep ts) c - ts| ≤ |c - ts| ∧
      (∀ t ∈ l, |l.foldl (nearStep ts) c - ts| ≤ |t - ts|) ∧
      (l.foldl (nearStep ts) c ≠ c → |l.foldl (nearStep ts) c - ts| < |c - ts|) := by
  intro l
  induction l with
  | nil =>
      intro c
      exact ⟨Or.inl rfl, le_refl _, by simp, fun h => absurd rfl h⟩
  | cons t0 rest ih =>
      intro c
      rw [List.foldl_cons]
      by_cases h : |t0 - ts| < |c - ts|
      · rw [show nearStep ts c t0 = t0 from if_pos h]
        obtain ⟨ha, hb, hc, hd⟩ := ih t0
        refine ⟨?_, le_trans hb (le_of_lt h), ?_, ?_⟩
        · rcases ha with h1 | h1
          · exact Or.inr (by rw [h1]; exact List.mem_cons_self _ _)
          · exact Or.inr (List.mem_cons_of_mem _ h1)
        · intro t ht
          rcases List.mem_cons.mp ht with rfl | ht2
          · exact hb
          · exact hc t ht2
        · intro hne
          by_cases he : rest.foldl (nearStep ts) t0 = t0
          · rw [he]; exact h
          · exact lt_trans (hd he) h
      · rw [show nearStep ts c t0 = c from if_neg h]
        obtain ⟨ha, hb, hc, hd⟩ := ih c
        refine ⟨?_, hb, ?_, hd⟩
        · rcases ha with h1 | h1
          · exact Or.inl h1
          · exact Or.inr (List.mem_cons_of_mem _ h1)
        · intro t ht
          rcases List.mem_cons.mp ht with rfl | ht2
          · exact le_trans hb (not_lt.mp h)
          · exact hc t ht2

/-- Tie-break of the scan over an ascending list: when the result is not
the initial value, it is the least element among those at minimal
distance. -/
lemma near_fold_tie (ts : Int) :
    ∀ (l : List Int) (c : Int), l.Sorted (· ≤ ·) →
      ∀ t ∈ l, |t - ts| = |l.foldl (nearStep ts) c - ts| →
        l.foldl (nearStep ts) c ≠ c → l.foldl (nearStep ts) c ≤ t := by
  intro l
  induction l with
  | nil => intro c _ t ht; exact absurd ht (List.not_mem_nil t)
  | cons t0 rest ih =>
      intro c hsort t ht htie hne
      have hhead : ∀ b ∈ rest, t0 ≤ b := (List.sorted_cons.mp hsort).1
      have hsort2 : rest.Sorted (· ≤ ·) := (List.sorted_cons.mp hsort).2
      rw [List.foldl_cons] at htie hne ⊢
      by_cases h : |t0 - ts| < |c - ts|
      · rw [show nearStep ts c t0 = t0 from if_pos h] at htie hne ⊢
        rcases List.mem_cons.mp ht with heq | ht2
        · rw [heq] at htie ⊢
          by_cases he : rest.foldl (nearStep ts) t0 = t0
          · rw [he]
          · exfalso
            have hd := (near_fold ts rest t0).2.2.2 he
            rw [← htie] at hd
            exact lt_irrefl _ hd
        · by_cases he : rest.foldl (nearStep ts) t0 = t0
          · rw [he]; exact hhead t ht2
          · exact ih t0 hsort2 t ht2 htie he
      · rw [show nearStep ts c t0 = c from if_neg h] at htie hne ⊢
        rcases List.mem_cons.mp ht with heq | ht2
        · exfalso
          have hlt := (near_fold ts rest c).2.2.2 hne
          have hge : |c - ts| ≤ |t0 - ts| := not_lt.mp h
          rw [heq] at htie
          rw [htie] at hge
          exact lt_irrefl _ (lt_of_lt_of_le hlt hge)
        · exact ih c hsort2 t ht2 htie hne

/-- When the initial value is already weakly closest, the scan keeps it. -/
lemma near_fold_keep (ts : Int) :
    ∀ (l : List Int) (c : Int), (∀ t ∈ l, |c - ts| ≤ |t - ts|) →
      l.foldl (nearStep ts) c = c := by
  intro l
  induction l with
  | nil => intro c _; rfl
  | cons t0 rest ih =>
      intro c h
      rw [List.foldl_cons,
        show nearStep ts c t0 = c from if_neg (not_lt.mpr (h t0 (List.mem_cons_self _ _)))]
      exact ih c (fun t ht => h t (List.mem_cons_of_mem _ ht))

/-! ### The forward-fill pass -/

lemma obs_update_hr_self (o : Obs) (h : Int) (ho : o.heart_rate = some h) :
    { o with heart_rate := some h } = o := by
  cases o with
  | mk t la lo al di ca hr sp =>
      dsimp only at ho
      rw [← ho]

lemma getLast_getD_cons {α : Type _} (a : α) (xs : List α) (c : α) :
    ((a :: xs).getLast?).getD c = (xs.getLast?).getD a := by
  cases xs with
  | nil => rfl
  | cons b t =>
      obtain ⟨x, hx⟩ := Option.isSome_iff_exists.mp
        (List.getLast?_isSome.mpr (List.cons_ne_nil b t))
      rw [List.getLast?_cons_cons, hx]
      rfl

/-- Elementwise effect of the forward-fill pass: entry `i` keeps its own
truthy heart rate, and otherwise receives the most recent earlier explicit
reading (default: the initial carry).  Requires that no stored heart rate
is the integer `0` (which holds for every merged dict, see below). -/
lemma fillHR_getElem :
    ∀ (l : MData) (carry : Int) (i : Nat),
      (∀ p ∈ l, p.2.heart_rate ≠ some (0 : Int)) →
      (fillHR carry l)[i]? = (l[i]?).map (fun p =>
        (p.1, { p.2 with
          heart_rate := some ((p.2.heart_rate).getD (specLastHR carry (l.take i))) })) := by
  intro l
  induction l with
  | nil => intro carry i hz; simp [fillHR]
  | cons p rest ih =>
      intro carry i hz
      obtain ⟨k, o⟩ := p
      have hzr : ∀ q ∈ rest, q.2.heart_rate ≠ some (0 : Int) :=
        fun q hq => hz q (List.mem_cons_of_mem _ hq)
      cases ho : o.heart_rate with
      | some h =>
          have h0 : ¬ h = 0 := by
            intro h0
            exact hz (k, o) (List.mem_cons_self _ _) (by rw [ho, h0])
          rw [show fillHR carry ((k, o) :: rest) = (k, o) :: fillHR h rest from by
            simp [fillHR, ho, h0]]
          cases i with
          | zero =>
              simp only [List.getElem?_cons_zero, Option.map_some', ho,
                Option.getD_some]
              rw [obs_update_hr_self o h ho]
          | succ n =>
              simp only [List.getElem?_cons_succ, List.take_succ_cons]
              rw [ih h n hzr]
              cases hr : rest[n]? with
              | none => rfl
              | some q =>
                  simp only [Option.map_some']
                  have hlast : specLastHR h (rest.take n) =
                      specLastHR carry ((k, o) :: rest.take n) := by
                    simp [specLastHR, ho, getLast_getD_cons]
                  rw [hlast]
      | none =>
          rw [show fillHR carry ((k, o) :: rest)
              = (k, { o with heart_rate := some carry }) :: fillHR carry rest from by
            simp [fillHR, ho]]
          cases i with
          | zero =>
              simp only [List.getElem?_cons_zero, Option.map_some', ho,
                Option.getD_none, List.take_zero]
              have : specLastHR carry ([] : MData) = carry := rfl
              rw [this]
          | succ n =>
              simp only [List.getElem?_cons_succ, List.take_succ_cons]
              rw [ih carry n hzr]
              cases hr : rest[n]? with
              | none => rfl
              | some q =>
                  simp only [Option.map_some']
                  have hlast : specLastHR carry (rest.take n) =
                      specLastHR carry ((k, o) :: rest.take n) := by
                    simp [specLastHR, ho]
                  rw [hlast]

lemma hr_setF (o : Obs) (f : FieldName) (x : Int) :
    (setF o f x).heart_rate
      = if f = FieldName.heart_rate then some x else o.heart_rate := by
  cases f <;> simp [setF]

lemma hz_procLoc {s : MData} (e : LocEntry)
    (h : ∀ p ∈ s, p.2.heart_rate ≠ some (0 : Int)) :
    ∀ p ∈ procLoc s e, p.2.heart_rate ≠ some (0 : Int) := by
  intro p hp
  unfold procLoc at hp
  cases hl : mlookup s e.start_time with
  | some o2 => rw [hl] at hp; exact h p hp
  | none =>
      rw [hl] at hp
      rcases List.mem_append.mp hp with h2 | h2
      · exact h p h2
      · rcases List.mem_singleton.mp h2 with rfl
        simp [locObs]

lemma hz_procField {s : MData} (ts : Int) (f : FieldName) (v : Option Int)
    (h : ∀ p ∈ s, p.2.heart_rate ≠ some (0 : Int)) :
    ∀ p ∈ procField ts f v s, p.2.heart_rate ≠ some (0 : Int) := by
  cases v with
  | none => exact h
  | some y =>
      by_cases hy : y = 0
      · intro p hp
        rw [procField, if_pos hy] at hp
        exact h p hp
      · intro p hp
        rw [procField, if_neg hy] at hp
        have hs1 : ∀ p2 ∈ (if (mlookup s ts).isNone
            then s ++ [(ts, setF (emptyObs ts) f y)] else s),
            p2.2.heart_rate ≠ some (0 : Int) := by
          intro p2 hp2
          by_cases hs : (mlookup s ts).isNone
          · rw [if_pos hs] at hp2
            rcases List.mem_append.mp hp2 with h2 | h2
            · exact h p2 h2
            · rcases List.mem_singleton.mp h2 with rfl
              rw [hr_setF]
              by_cases hf : f = FieldName.heart_rate
              · rw [if_pos hf]
                intro hcon
                exact hy (by injection hcon)
              · rw [if_neg hf]
                simp [emptyObs]
          · rw [if_neg hs] at hp2
            exact h p2 hp2
        simp only at hp
        by_cases hg : (getMF (if (mlookup s ts).isNone
            then s ++ [(ts, setF (emptyObs ts) f y)] else s) ts f).isNone
        · rw [if_pos hg] at hp
          rcases mem_mupdate _ _ _ p hp with h2 | ⟨q, hq, rfl⟩
          · exact hs1 p h2
          · rw [hr_setF]
            by_cases hf : f = FieldName.heart_rate
            · rw [if_pos hf]
              intro hcon
              exact hy (by injection hcon)
            · rw [if_neg hf]
              exact hs1 q hq
        · rw [if_neg hg] at hp
          exact hs1 p hp

lemma hz_fieldFold (ts : Int) (g : FieldName → Option Int) :
    ∀ (fs : List FieldName) (s : MData),
      (∀ p ∈ s, p.2.heart_rate ≠ some (0 : Int)) →
      ∀ p ∈ fs.foldl (fun s2 f2 => procField ts f2 (g f2) s2) s,
        p.2.heart_rate ≠ some (0 : Int) := by
  intro fs
  induction fs with
  | nil => intro s h; exact h
  | cons f2 rest ih =>
      intro s h
      exact ih _ (hz_procField ts f2 (g f2) h)

lemma hz_liveFold (loc : List LocEntry) :
    ∀ (live : List LiveEntry) (acc : MData × List LiveEntry),
      (∀ p ∈ acc.1, p.2.heart_rate ≠ some (0 : Int)) →
      ∀ p ∈ (live.foldl (mergeStep loc) acc).1, p.2.heart_rate ≠ some (0 : Int) := by
  intro live
  induction live with
  | nil => intro acc h; exact h
  | cons e rest ih =>
      intro acc h
      refine ih _ ?_
      exact hz_fieldFold _ _ liveKeys acc.1 h

lemma hz_preMerged (loc : List LocEntry) (live : List LiveEntry) :
    ∀ p ∈ preMerged loc live, p.2.heart_rate ≠ some (0 : Int) := by
  intro p hp
  have hp2 : p ∈ (mergeLoop loc live).1 := (sortMerged_perm _).mem_iff.mp hp
  have hloc : ∀ p2 ∈ locState loc, p2.2.heart_rate ≠ some (0 : Int) := by
    intro p2 hp2
    rcases locFold_mem loc [] p2 hp2 with h2 | ⟨e, _, rfl⟩
    · exact absurd h2 (List.not_mem_nil p2)
    · simp [locObs]
  exact hz_liveFold loc live (locState loc, []) hloc p hp2

lemma fillHR_length (l : MData) : ∀ c, (fillHR c l).length = l.length := by
  induction l with
  | nil => intro c; rfl
  | cons p rest ih =>
      intro c
      obtain ⟨k, o⟩ := p
      cases ho : o.heart_rate with
      | some h =>
          by_cases h0 : h = 0
          · simp [fillHR, ho, h0, ih]
          · simp [fillHR, ho, h0, ih]
      | none => simp [fillHR, ho, ih]

/-! ### Unfolding the live-data step -/

lemma live_update_st_self (e : LiveEntry) : { e with start_time := e.start_time } = e := by
  cases e
  rfl

lemma pyIntOfRat_intCast (n : Int) : pyIntOfRat ((n : Int) : Rat) = n := by
  simp [pyIntOfRat]

lemma coerceHR_start_time (e : LiveEntry) : (coerceHR e).start_time = e.start_time := by
  cases e with
  | mk st d c hr sp => cases hr <;> rfl

lemma getLF_coerceHR (e : LiveEntry) (f : FieldName) :
    getLF (coerceHR e) f = getLF e f := by
  cases e with
  | mk st d c hr sp =>
      cases hr with
      | none => rfl
      | some q => cases f <;> simp [getLF, coerceHR, pyIntOfRat_intCast]

lemma procLive_eq (loc : List LocEntry) (s : MData) (e : LiveEntry) :
    procLive loc s e =
      if (mlookup s e.start_time).isNone && !loc.isEmpty then
        (liveKeys.foldl (fun s2 f =>
            procField (find_nearest_time e.start_time loc) f
              (getLF (coerceHR { e with
                start_time := find_nearest_time e.start_time loc }) f) s2) s,
          coerceHR { e with start_time := find_nearest_time e.start_time loc })
      else
        (liveKeys.foldl (fun s2 f => procField e.start_time f (getLF (coerceHR e) f) s2) s,
          coerceHR e) := by
  by_cases hb : ((mlookup s e.start_time).isNone && !loc.isEmpty) = true
  · simp [procLive, hb]
  · simp [procLive, hb]

lemma mergeLoop_snd_acc (loc : List LocEntry) :
    ∀ (live : List LiveEntry) (s : MData) (l0 : List LiveEntry),
      (live.foldl (mergeStep loc) (s, l0)).2
        = l0 ++ (live.foldl (mergeStep loc) (s, [])).2 := by
  intro live
  induction live with
  | nil => intro s l0; simp
  | cons e rest ih =>
      intro s l0
      rw [List.foldl_cons, List.foldl_cons]
      rw [show mergeStep loc (s, l0) e
          = ((procLive loc s e).1, l0 ++ [(procLive loc s e).2]) from rfl]
      rw [show mergeStep loc (s, ([] : List LiveEntry)) e
          = ((procLive loc s e).1, [] ++ [(procLive loc s e).2]) from rfl]
      rw [ih _ (l0 ++ [(procLive loc s e).2]), ih _ ([] ++ [(procLive loc s e).2])]
      simp

lemma mergeLoop_snd_shape (loc : List LocEntry) :
    ∀ (live : List LiveEntry) (s : MData) (i : Nat) (e : LiveEntry),
      live[i]? = some e →
      ∃ t : Int, ((live.foldl (mergeStep loc) (s, [])).2)[i]?
          = some (coerceHR { e with start_time := t })
        ∧ (t = e.start_time ∨ (loc ≠ [] ∧ t = find_nearest_time e.start_time loc)) := by
  intro live
  induction live with
  | nil => intro s i e he; simp at he
  | cons e0 rest ih =>
      intro s i e he
      rw [List.foldl_cons,
        show mergeStep loc (s, ([] : List LiveEntry)) e0
          = ((procLive loc s e0).1, [(procLive loc s e0).2]) from rfl,
        mergeLoop_snd_acc loc rest (procLive loc s e0).1 [(procLive loc s e0).2]]
      cases i with
      | zero =>
          rw [List.getElem?_cons_zero] at he
          injection he with he
          subst he
          by_cases hb : ((mlookup s e0.start_time).isNone && !loc.isEmpty) = true
          · refine ⟨find_nearest_time e0.start_time loc, ?_, ?_⟩
            · rw [procLive_eq, if_pos hb]
              simp
            · right
              constructor
              · intro hnil
                rw [hnil] at hb
                simp at hb
              · rfl
          · refine ⟨e0.start_time, ?_, Or.inl rfl⟩
            rw [procLive_eq, if_neg hb]
            simp [live_update_st_self]
      | succ n =>
          rw [List.getElem?_cons_succ] at he
          obtain ⟨t, ht1, ht2⟩ := ih (procLive loc s e0).1 n e he
          exact ⟨t, by simpa using ht1, ht2⟩

lemma mergeLoop_snd_nil_loc :
    ∀ (live : List LiveEntry) (s : MData),
      (live.foldl (mergeStep ([] : List LocEntry)) (s, [])).2 = live.map coerceHR := by
  intro live
  induction live with
  | nil => intro s; rfl
  | cons e rest ih =>
      intro s
      rw [List.foldl_cons,
        show mergeStep [] (s, ([] : List LiveEntry)) e
          = ((procLive [] s e).1, [(procLive [] s e).2]) from rfl,
        mergeLoop_snd_acc [] rest (procLive [] s e).1 [(procLive [] s e).2]]
      have hsnap : ((mlookup s e.start_time).isNone && !(List.isEmpty ([] : List LocEntry))) = false := by
        simp
      rw [procLive_eq, if_neg (by rw [hsnap]; simp)]
      rw [ih (liveKeys.foldl
        (fun s2 f => procField e.start_time f (getLF (coerceHR e) f) s2) s)]
      rfl

/-! ### Creation of keys by the live-data loop -/

lemma truthy_iff (v : Option Int) :
    truthy v = true ↔ ∃ y, v = some y ∧ y ≠ 0 := by
  cases v with
  | none => simp [truthy]
  | some y => simp [truthy]

lemma procField_creates (s : MData) (ts : Int) (f : FieldName) (y : Int) (hy : y ≠ 0) :
    (mlookup (procField ts f (some y) s) ts).isSome := by
  rw [procField, if_neg hy]
  have step1 : (mlookup (if (mlookup s ts).isNone
      then s ++ [(ts, setF (emptyObs ts) f y)] else s) ts).isSome := by
    by_cases hs : (mlookup s ts).isNone
    · rw [if_pos hs, mlookup_append, Option.isNone_iff_eq_none.mp hs, option_none_or]
      simp [mlookup]
    · rw [if_neg hs]
      cases hv : mlookup s ts with
      | none => exact absurd (by rw [hv]; rfl) hs
      | some o => rfl
  by_cases hg : (getMF (if (mlookup s ts).isNone
      then s ++ [(ts, setF (emptyObs ts) f y)] else s) ts f).isNone
  · rw [if_pos hg, mlookup_mupdate, if_pos rfl]
    simpa using step1
  · rw [if_neg hg]
    exact step1

lemma fieldFold_mem (ts : Int) (g : FieldName → Option Int) :
    ∀ (fs : List FieldName) (s : MData),
      (∃ f ∈ fs, truthy (g f) = true) →
      (mlookup (fs.foldl (fun s2 f2 => procField ts f2 (g f2) s2) s) ts).isSome := by
  intro fs
  induction fs with
  | nil => intro s h; rcases h with ⟨f, hf, _⟩; exact absurd hf (List.not_mem_nil f)
  | cons f2 rest ih =>
      intro s h
      by_cases ht : truthy (g f2) = true
      · obtain ⟨y, hy, hy0⟩ := (truthy_iff _).mp ht
        rw [List.foldl_cons]
        exact isSome_fieldFold ts g rest _ (by rw [hy]; exact procField_creates s ts f2 y hy0)
      · rcases h with ⟨f, hf, hft⟩
        rcases List.mem_cons.mp hf with rfl | hf2
        · exact absurd hft ht
        · exact ih _ ⟨f, hf2, hft⟩

lemma truthyAny_exists (e : LiveEntry) (ht : truthyAny e = true) :
    ∃ f ∈ liveKeys, truthy (getLF e f) = true := by
  unfold truthyAny at ht
  rcases Bool.or_eq_true_iff.mp ht with h1 | h1
  · rcases Bool.or_eq_true_iff.mp h1 with h2 | h2
    · rcases Bool.or_eq_true_iff.mp h2 with h3 | h3
      · exact ⟨FieldName.distance, by simp [liveKeys], h3⟩
      · exact ⟨FieldName.cadence, by simp [liveKeys], h3⟩
    · exact ⟨FieldName.heart_rate, by simp [liveKeys], h2⟩
  · exact ⟨FieldName.speed, by simp [liveKeys], h1⟩

/-! ### Key provenance -/

lemma find_nearest_mem (ts : Int) (loc : List LocEntry) :
    find_nearest_time ts loc = 0
      ∨ find_nearest_time ts loc ∈ loc.map LocEntry.start_time := by
  rcases (near_fold ts (List.insertionSort (· ≤ ·) (loc.map (·.start_time))) 0).1 with h | h
  · exact Or.inl h
  · exact Or.inr ((List.perm_insertionSort _ _).mem_iff.mp h)

lemma keys_locState (loc : List LocEntry) (k : Int)
    (h : (mlookup (locState loc) k).isSome) : k ∈ loc.map LocEntry.start_time := by
  have hmem := (mlookup_isSome_iff_mem_fst _ _).mp h
  obtain ⟨p, hp, hpk⟩ := List.mem_map.mp hmem
  rcases locFold_mem loc [] p hp with h2 | ⟨e, he, rfl⟩
  · exact absurd h2 (List.not_mem_nil p)
  · exact hpk ▸ List.mem_map.mpr ⟨e, he, rfl⟩

lemma keys_liveFold (loc : List LocEntry) (hne : loc ≠ []) :
    ∀ (live : List LiveEntry) (acc : MData × List LiveEntry),
      (∀ k, (mlookup acc.1 k).isSome → k ∈ loc.map LocEntry.start_time ∨ k = 0) →
      ∀ k, (mlookup (live.foldl (mergeStep loc) acc).1 k).isSome →
        k ∈ loc.map LocEntry.start_time ∨ k = 0 := by
  intro live
  induction live with
  | nil => intro acc hacc; exact hacc
  | cons e rest ih =>
      intro acc hacc
      rw [List.foldl_cons]
      refine ih _ ?_
      intro k hk
      rw [show (mergeStep loc acc e).1 = (procLive loc acc.1 e).1 from rfl] at hk
      by_cases hb : ((mlookup acc.1 e.start_time).isNone && !loc.isEmpty) = true
      · rw [procLive_eq, if_pos hb] at hk
        rcases fieldFold_isSome_inv _ _ liveKeys acc.1 hk with h2 | h2
        · exact hacc k h2
        · rcases find_nearest_mem e.start_time loc with h3 | h3
          · exact Or.inr (h2.trans h3)
          · exact Or.inl (h2 ▸ h3)
      · rw [procLive_eq, if_neg hb] at hk
        rcases fieldFold_isSome_inv _ _ liveKeys acc.1 hk with h2 | h2
        · exact hacc k h2
        · by_cases hn : (mlookup acc.1 e.start_time).isNone = true
          · exfalso
            apply hb
            rw [hn, Bool.true_and]
            cases hloc : loc with
            | nil => exact absurd hloc hne
            | cons a l2 => rfl
          · subst h2
            refine hacc e.start_time ?_
            cases hv : mlookup acc.1 e.start_time with
            | none => exact absurd (by rw [hv]; rfl) hn
            | some o => rfl

lemma mem_keys_merge_iff (loc : List LocEntry) (live : List LiveEntry) (k : Int) :
    k ∈ (merge_location_and_live_data loc live).map Prod.fst
      ↔ (mlookup (mergeLoop loc live).1 k).isSome := by
  unfold merge_location_and_live_data
  rw [fillHR_map_fst]
  unfold preMerged
  have hperm := (sortMerged_perm (mergeLoop loc live).1).map Prod.fst
  exact Iff.trans hperm.mem_iff (mlookup_isSome_iff_mem_fst _ _).symm

lemma fillHR_all_none (c : Int) :
    ∀ (l : MData), (∀ p ∈ l, p.2.heart_rate = none) →
      fillHR c l = l.map (fun p => (p.1, { p.2 with heart_rate := some c })) := by
  intro l
  induction l with
  | nil => intro h; rfl
  | cons p rest ih =>
      intro h
      obtain ⟨k, o⟩ := p
      have ho : o.heart_rate = none := h (k, o) (List.mem_cons_self _ _)
      rw [show fillHR c ((k, o) :: rest)
          = (k, { o with heart_rate := some c }) :: fillHR c rest from by
        simp [fillHR, ho]]
      rw [ih (fun q hq => h q (List.mem_cons_of_mem _ hq))]
      rfl

/-! ## The claims -/

/-- C1 (code bug exhibited): an observation carrying latitude 10 and
longitude 20 (with the forward-filled heart rate 0) but no altitude gets
no Position node — `create_trackpoint` gates Position on
`data.get("altitude") and data.get("longitude")` instead of latitude and
longitude, so here the whole trackpoint is dropped; and the same
observation with an altitude added does get a Position, so altitude
presence does gate emission.  The claim (and the spec sentence it cites)
require a Position node exactly when latitude and longitude are present. -/
theorem claim_C1 :
    create_trackpoint
        { time := 1000, latitude := some 10, longitude := some 20, heart_rate := some 0 }
      = none
    ∧ create_trackpoint
        { time := 1000, latitude := some 10, longitude := some 20, altitude := some 5,
          heart_rate := some 0 }
      = some { time := 1000, position := some (some 10, some 20) } := by
  decide

/-- C3: `find_nearest_time` scans the candidate timestamps in ascending
order with the best-so-far initialized to the sentinel 0, and returns the
value minimizing the absolute difference to the target over the sentinel
and the candidates; ties keep the value scanned first (the sentinel, then
the smallest tying candidate).  The function is total, in particular on a
singleton candidate set (see the witness). -/
theorem claim_C3 (ts : Int) (data : List LocEntry) (hne : data ≠ []) :
    (find_nearest_time ts data = 0
      ∨ find_nearest_time ts data ∈ List.insertionSort (· ≤ ·) (data.map (·.start_time)))
    ∧ |find_nearest_time ts data - ts| ≤ |0 - ts|
    ∧ (∀ t ∈ List.insertionSort (· ≤ ·) (data.map (·.start_time)),
        |find_nearest_time ts data - ts| ≤ |t - ts|)
    ∧ ((∀ t ∈ List.insertionSort (· ≤ ·) (data.map (·.start_time)),
        |0 - ts| ≤ |t - ts|) → find_nearest_time ts data = 0)
    ∧ (∀ t ∈ List.insertionSort (· ≤ ·) (data.map (·.start_time)),
        |t - ts| = |find_nearest_time ts data - ts| → find_nearest_time ts data ≠ 0 →
          find_nearest_time ts data ≤ t) := by
  have h := near_fold ts (List.insertionSort (· ≤ ·) (data.map (·.start_time))) 0
  refine ⟨h.1, h.2.1, h.2.2.1, ?_, ?_⟩
  · intro hk
    exact near_fold_keep ts _ 0 hk
  · intro t htm htie hne0
    exact near_fold_tie ts _ 0 (List.sorted_insertionSort _ _) t htm htie hne0

/-- Witness for C3 at target 5 with the singleton candidate set {10}. -/
theorem claim_C3_witness :
    |find_nearest_time 5 [{ start_time := 10, latitude := 1, longitude := 1 }] - 5|
      ≤ |0 - 5| :=
  (claim_C3 5 [{ start_time := 10, latitude := 1, longitude := 1 }] (by decide)).2.1

/-- C4 counterexample: target 5 and the singleton candidate set {10} are
strictly positive, yet the resolver returns the sentinel 0, which is not a
member of the candidate set (|10 - 5| = 5 is not strictly smaller than
|0 - 5| = 5, so the sentinel survives the scan). -/
theorem claim_C4_cex :
    (0 : Int) < 5
    ∧ (∀ t ∈ [({ start_time := 10, latitude := 1, longitude := 1 } : LocEntry)].map
        LocEntry.start_time, 0 < t)
    ∧ find_nearest_time 5 [{ start_time := 10, latitude := 1, longitude := 1 }] = 0
    ∧ find_nearest_time 5 [{ start_time := 10, latitude := 1, longitude := 1 }]
        ∉ [({ start_time := 10, latitude := 1, longitude := 1 } : LocEntry)].map
          LocEntry.start_time := by
  decide

/-- C4 (amended): for a strictly positive target and a non-empty set of
strictly positive candidate timestamps, the resolver's result is a member
of the candidate set if and only if some candidate is strictly closer to
the target than 0 is; otherwise the sentinel 0 itself is returned. -/
theorem claim_C4 (ts : Int) (data : List LocEntry) (hne : data ≠ [])
    (hpos : ∀ t ∈ data.map (·.start_time), 0 < t) (hts : 0 < ts) :
    find_nearest_time ts data ∈ data.map (·.start_time)
      ↔ ∃ t ∈ data.map (·.start_time), |t - ts| < |0 - ts| := by
  have hperm := List.perm_insertionSort (· ≤ ·) (data.map (·.start_time))
  have h := near_fold ts (List.insertionSort (· ≤ ·) (data.map (·.start_time))) 0
  constructor
  · intro hmem
    have h0 : (0 : Int) < find_nearest_time ts data := hpos _ hmem
    exact ⟨find_nearest_time ts data, hmem, h.2.2.2 (ne_of_gt h0)⟩
  · rintro ⟨t, htm, hlt⟩
    have htm2 := hperm.mem_iff.mpr htm
    have hne0 : (List.insertionSort (· ≤ ·) (data.map (·.start_time))).foldl
        (nearStep ts) 0 ≠ 0 := by
      intro h0
      have hle2 := h.2.2.1 t htm2
      rw [h0] at hle2
      exact absurd (lt_of_le_of_lt hle2 hlt) (lt_irrefl _)
    rcases h.1 with h1 | h1
    · exact absurd h1 hne0
    · exact hperm.mem_iff.mp h1

/-- Witness for C4: target 5, candidate 6 (distance 1 < 5), membership
holds. -/
theorem claim_C4_witness :
    find_nearest_time 5 [{ start_time := 6, latitude := 1, longitude := 1 }]
      ∈ [({ start_time := 6, latitude := 1, longitude := 1 } : LocEntry)].map
        (·.start_time) :=
  (claim_C4 5 [{ start_time := 6, latitude := 1, longitude := 1 }]
    (by decide) (by decide) (by decide)).mpr ⟨6, by decide, by decide⟩

/-- C6 (code bug exhibited): with the sentinel average `"0.0"` and a
present, non-sentinel maximum `"150.0"`, `create_lap` emits no
maximum-heart-rate node, because its gate tests `avg_hr != "0.0"` instead
of `max_hr != "0.0"`; with a non-sentinel average the node appears,
rendered as the integer 150.  The claim (and the spec) gate each summary
node on its own value. -/
theorem claim_C6 :
    (create_lap (r"s") (r"") (r"") (r"") (r"0.0") (r"150.0") (r"") (r"") (r"")
      (r"")).maxHRNode = none
    ∧ (r"150.0" : String) ≠ (r"")
    ∧ (r"150.0" : String) ≠ (r"0.0")
    ∧ (create_lap (r"s") (r"") (r"") (r"") (r"80.0") (r"150.0") (r"") (r"") (r"")
      (r"")).maxHRNode = some 150 := by
  decide

/-- C9 counterexample: merging one positional sample at timestamp 1000
with one physiological sample at timestamp 1400 carrying the fractional
heart-rate reading 120.5 mutates the physiological store in place twice
over — the sample's start_time is overwritten with the snapped value 1000
and its heart-rate reading is truncated to the integer 120 — so the store
is not left unchanged. -/
theorem claim_C9_cex :
    (mergeFull [{ start_time := 1000, latitude := 10, longitude := 20 }]
        [{ start_time := 1400, heart_rate := some (mkRat 241 2) }]).2
      ≠ [{ start_time := 1400, heart_rate := some (mkRat 241 2) }]
    ∧ (mergeFull [{ start_time := 1000, latitude := 10, longitude := 20 }]
        [{ start_time := 1400, heart_rate := some (mkRat 241 2) }]).2
      = [{ start_time := 1000, heart_rate := some (120 : Rat) }] := by
  decide

/-- C9 (amended): the merge never writes into the positional store, but
physiological samples are mutated in place: after the merge, entry `i` of
the physiological store equals the input sample with its heart-rate
reading, when present, truncated to an integer in place (`coerceHR`, the
source's `entry["heart_rate"] = int(entry["heart_rate"])`) and its
start_time possibly replaced; any replacement is the snapped (nearest
positional) timestamp, which can happen only when positional data
exists. -/
theorem claim_C9 (loc : List LocEntry) (live : List LiveEntry) (i : Nat)
    (e : LiveEntry) (he : live[i]? = some e) :
    ∃ t : Int, ((mergeFull loc live).2)[i]? = some (coerceHR { e with start_time := t })
      ∧ (t = e.start_time ∨ (loc ≠ [] ∧ t = find_nearest_time e.start_time loc)) :=
  mergeLoop_snd_shape loc live (locState loc) i e he

/-- C2: after reconciliation, entry `i` of the sorted output has the key
of entry `i` of the sorted pre-fill dict and carries a heart-rate value
equal to that entry's own explicit reading when it has one, and otherwise
to the most recent earlier explicit reading, or 0 when there is none
(`Option.getD` of the reading over `specLastHR 0` of the preceding
entries). -/
theorem claim_C2 (loc : List LocEntry) (live : List LiveEntry) (i : Nat)
    (q p : Int × Obs)
    (hq : (merge_location_and_live_data loc live)[i]? = some q)
    (hp : (preMerged loc live)[i]? = some p) :
    q.1 = p.1
    ∧ q.2.heart_rate
      = some ((p.2.heart_rate).getD (specLastHR 0 ((preMerged loc live).take i))) := by
  have h := fillHR_getElem (preMerged loc live) 0 i (hz_preMerged loc live)
  rw [show merge_location_and_live_data loc live
      = fillHR 0 (preMerged loc live) from rfl] at hq
  rw [h, hp] at hq
  simp only [Option.map_some'] at hq
  injection hq with hq
  rw [← hq]
  exact ⟨rfl, rfl⟩

/-- Witness for C2: one positional sample at 1, one physiological sample
at 2 snapped onto it; the merged entry 0 carries its own reading 7. -/
theorem claim_C2_witness :
    (((1 : Int), ({ time := 1, latitude := some 5, longitude := some 6, heart_rate := some 7 } : Obs)) : Int × Obs).1
      = (((1 : Int), ({ time := 1, latitude := some 5, longitude := some 6, heart_rate := some 7 } : Obs)) : Int × Obs).1
    ∧ (((1 : Int), ({ time := 1, latitude := some 5, longitude := some 6, heart_rate := some 7 } : Obs)) : Int × Obs).2.heart_rate
      = some ((({ time := 1, latitude := some 5, longitude := some 6, heart_rate := some 7 } : Obs).heart_rate).getD
        (specLastHR 0 ((preMerged [{ start_time := 1, latitude := 5, longitude := 6 }]
          [{ start_time := 2, heart_rate := some 7 }]).take 0))) :=
  claim_C2 [{ start_time := 1, latitude := 5, longitude := 6 }]
    [{ start_time := 2, heart_rate := some 7 }] 0
    ((1 : Int), { time := 1, latitude := some 5, longitude := some 6, heart_rate := some 7 })
    ((1 : Int), { time := 1, latitude := some 5, longitude := some 6, heart_rate := some 7 })
    (by decide) (by decide)

/-- C5 counterexample: physiological flag false (empty live store) and one
positional sample carrying an altitude: the built document's lap does get
a track — the altitude-gated Position keeps the trackpoint non-empty —
contradicting the claim that no track at all is attached for any
well-formed positional store with or without altitude. -/
theorem claim_C5_cex :
    (build_xml (r"2020") (r"Other") (create_lap (r"2020") (r"") (r"") (r""))
      (exerciseTrackpoints
        [{ start_time := 1000, latitude := 10, longitude := 20, altitude := some 5 }]
        [])).lap.track ≠ none := by
  decide

/-- C5 (amended): with the physiological store empty and a non-empty
positional store whose samples carry no altitude field, the built
document's lap has no track at all — every merged observation yields a
bare Time-only trackpoint, which is dropped.  (With an altitude present a
track is attached; see the counterexample.) -/
theorem claim_C5 (loc : List LocEntry) (hne : loc ≠ [])
    (halt : ∀ e ∈ loc, e.altitude = none)
    (a ty : String) (lap : Lap) (hlap : lap.track = none) :
    (build_xml a ty lap (exerciseTrackpoints loc [])).lap.track = none := by
  have hpre : ∀ p2 ∈ preMerged loc [],
      p2.2.heart_rate = none ∧ p2.2.altitude = none ∧ p2.2.cadence = none := by
    intro p2 hp2
    have hp3 : p2 ∈ locState loc := (sortMerged_perm _).mem_iff.mp hp2
    rcases locFold_mem loc [] p2 hp3 with h2 | ⟨e, he, rfl⟩
    · exact absurd h2 (List.not_mem_nil p2)
    · exact ⟨rfl, halt e he, rfl⟩
  have hobs : ∀ tp ∈ exerciseTrackpoints loc [], tp = none := by
    intro tp htp
    obtain ⟨p, hp, rfl⟩ := List.mem_map.mp htp
    rw [show merge_location_and_live_data loc []
        = fillHR 0 (preMerged loc []) from rfl,
      fillHR_all_none 0 _ (fun q hq => (hpre q hq).1)] at hp
    obtain ⟨p2, hp2, rfl⟩ := List.mem_map.mp hp
    obtain ⟨h1, h2, h3⟩ := hpre p2 hp2
    simp [create_trackpoint, truthy, h2, h3]
  have hnil : (exerciseTrackpoints loc []).filterMap id = [] :=
    List.filterMap_eq_nil_iff.mpr hobs
  rw [show build_xml a ty lap (exerciseTrackpoints loc [])
      = (if ((exerciseTrackpoints loc []).filterMap id).length > 0
        then { id := a, sport := ty, lap := { lap with track := some ((exerciseTrackpoints loc []).filterMap id) } }
        else { id := a, sport := ty, lap := lap }) from by
    rw [build_xml]
    by_cases hb : ((exerciseTrackpoints loc []).filterMap id).length > 0
    · rw [if_pos hb, if_pos hb]
    · rw [if_neg hb, if_neg hb]]
  rw [hnil]
  simpa using hlap

/-- Witness for C5: one altitude-free positional sample, no track. -/
theorem claim_C5_witness :
    (build_xml (r"a") (r"Other") (create_lap (r"a") (r"") (r"") (r""))
      (exerciseTrackpoints [{ start_time := 1000, latitude := 10, longitude := 20 }]
        [])).lap.track = none :=
  claim_C5 [{ start_time := 1000, latitude := 10, longitude := 20 }] (by decide)
    (by decide) (r"a") (r"Other") (create_lap (r"a") (r"") (r"") (r"")) (by decide)

/-- C7: with an empty positional store no snapping happens: no timestamp
is shifted — every record of the physiological store after the merge is
the input record transformed only by the in-place heart-rate truncation
(`coerceHR`), which always preserves start_time — and the raw timestamp
of every sample carrying at least one truthy sensor field appears as a
key of the merged output. -/
theorem claim_C7 (live : List LiveEntry) (e : LiveEntry) (he : e ∈ live)
    (ht : truthyAny e = true) :
    (mergeFull [] live).2 = live.map coerceHR
    ∧ (∀ e2 : LiveEntry, (coerceHR e2).start_time = e2.start_time)
    ∧ e.start_time ∈ (merge_location_and_live_data [] live).map Prod.fst := by
  refine ⟨mergeLoop_snd_nil_loc live (locState []), fun e2 => coerceHR_start_time e2, ?_⟩
  rw [mem_keys_merge_iff]
  obtain ⟨l1, l2, rfl⟩ := List.append_of_mem he
  rw [show (mergeLoop [] (l1 ++ e :: l2)).1
      = (l2.foldl (mergeStep [])
          (mergeStep [] (l1.foldl (mergeStep []) (locState [], [])) e)).1 from by
    rw [mergeLoop, List.foldl_append, List.foldl_cons]]
  refine isSome_liveFold [] l2 _ ?_
  rw [show (mergeStep [] (l1.foldl (mergeStep []) (locState [], [])) e).1
      = (procLive [] (l1.foldl (mergeStep []) (locState [], [])).1 e).1 from rfl]
  rw [procLive_eq, if_neg (by simp)]
  refine fieldFold_mem e.start_time (getLF (coerceHR e)) liveKeys _ ?_
  obtain ⟨f, hf, hft⟩ := truthyAny_exists e ht
  exact ⟨f, hf, by rw [getLF_coerceHR]; exact hft⟩

/-- Witness for C7 at a single physiological sample with a heart rate. -/
theorem claim_C7_witness :
    (mergeFull [] [{ start_time := 1400, heart_rate := some (120 : Rat) }]).2
      = [({ start_time := 1400, heart_rate := some (120 : Rat) } : LiveEntry)].map coerceHR
    ∧ (∀ e2 : LiveEntry, (coerceHR e2).start_time = e2.start_time)
    ∧ ({ start_time := 1400, heart_rate := some (120 : Rat) } : LiveEntry).start_time
      ∈ (merge_location_and_live_data []
          [{ start_time := 1400, heart_rate := some (120 : Rat) }]).map Prod.fst :=
  claim_C7 [{ start_time := 1400, heart_rate := some (120 : Rat) }]
    { start_time := 1400, heart_rate := some (120 : Rat) } (by decide) (by decide)

/-- C8: nothing stored is ever overwritten by a later sample: (i) a field
value present after processing any prefix of the positional store persists
through the rest of both loops, (ii) a field value present after
processing any prefix of the physiological store persists to the end, and
(iii) the positional seeding maps each timestamp to the observation of the
first positional sample carrying it — later duplicates are ignored. -/
theorem claim_C8 :
    (∀ (l1 l2 : List LocEntry) (live : List LiveEntry) (k : Int) (f : FieldName)
      (v : Int), getMF (locState l1) k f = some v →
        getMF (mergeLoop (l1 ++ l2) live).1 k f = some v)
    ∧ (∀ (loc : List LocEntry) (v1 v2 : List LiveEntry) (k : Int) (f : FieldName)
      (v : Int), getMF (mergeLoop loc v1).1 k f = some v →
        getMF (mergeLoop loc (v1 ++ v2)).1 k f = some v)
    ∧ (∀ (loc : List LocEntry) (k : Int),
      mlookup (locState loc) k
        = (loc.find? (fun e => e.start_time == k)).map locObs) := by
  refine ⟨?_, ?_, ?_⟩
  · intro l1 l2 live k f v h
    have h2 : getMF (locState (l1 ++ l2)) k f = some v := by
      rw [locState, List.foldl_append]
      exact getMF_locFold l2 _ h
    exact getMF_liveFold (l1 ++ l2) live _ h2
  · intro loc v1 v2 k f v h
    rw [mergeLoop, List.foldl_append]
    exact getMF_liveFold loc v2 _ h
  · intro loc k
    rw [locState, locFold_lookup loc [] k]
    rw [show mlookup [] k = none from rfl, option_none_or]

/-- Witness for C8: latitude 10 stored for key 1000 by the positional pass
survives the merge of a snapped heart-rate sample. -/
theorem claim_C8_witness :
    getMF (mergeLoop ([{ start_time := 1000, latitude := 10, longitude := 20 }] ++ [])
        [{ start_time := 1400, heart_rate := some 120 }]).1 1000
      FieldName.latitude = some 10 :=
  claim_C8.1 [{ start_time := 1000, latitude := 10, longitude := 20 }] []
    [{ start_time := 1400, heart_rate := some 120 }] 1000 FieldName.latitude 10
    (by decide)

/-- C10: when the positional store is non-empty, every key of the merged
output is the timestamp of some positional sample or the resolver
sentinel 0; no raw physiological timestamp introduces any other key. -/
theorem claim_C10 (loc : List LocEntry) (live : List LiveEntry) (hne : loc ≠ [])
    (k : Int) (hk : k ∈ (merge_location_and_live_data loc live).map Prod.fst) :
    k ∈ loc.map LocEntry.start_time ∨ k = 0 := by
  have h2 := (mem_keys_merge_iff loc live k).mp hk
  refine keys_liveFold loc hne live (locState loc, []) ?_ k h2
  intro k2 hk2
  exact Or.inl (keys_locState loc k2 hk2)

/-- Witness for C10 at one positional sample and a snapped physiological
sample. -/
theorem claim_C10_witness :
    (1000 : Int) ∈ [({ start_time := 1000, latitude := 10, longitude := 20 }
      : LocEntry)].map LocEntry.start_time ∨ (1000 : Int) = 0 :=
  claim_C10 [{ start_time := 1000, latitude := 10, longitude := 20 }]
    [{ start_time := 1400, heart_rate := some 120 }] (by decide) 1000 (by decide)

/-- Witness for C9 at the counterexample input. -/
theorem claim_C9_witness :
    ∃ t : Int, ((mergeFull [{ start_time := 1000, latitude := 10, longitude := 20 }]
        [{ start_time := 1400, heart_rate := some (mkRat 241 2) }]).2)[0]?
        = some (coerceHR { ({ start_time := 1400, heart_rate := some (mkRat 241 2) } : LiveEntry) with start_time := t })
      ∧ (t = ({ start_time := 1400, heart_rate := some (mkRat 241 2) } : LiveEntry).start_time
        ∨ ([({ start_time := 1000, latitude := 10, longitude := 20 } : LocEntry)] ≠ []
          ∧ t = find_nearest_time
              ({ start_time := 1400, heart_rate := some (mkRat 241 2) } : LiveEntry).start_time
              [{ start_time := 1000, latitude := 10, longitude := 20 }])) :=
  claim_C9 [{ start_time := 1000, latitude := 10, longitude := 20 }]
    [{ start_time := 1400, heart_rate := some (mkRat 241 2) }] 0
    { start_time := 1400, heart_rate := some (mkRat 241 2) } (by decide)

end SamToGarm
